import Mathlib

/-!
Verification of the call-tracing decorator in src/tracing.py.

The embedding models Python runtime values as the inductive type Val,
predicate configurations (which may be plain values or callables) as PyCfg,
the signature data that inspect.getargspec returns as ArgSpec, and the
wrapped callable as a function from the actual positional and keyword
arguments to an Outcome (normal return, an Exception instance, or a
BaseException that does not derive from Exception).  The decorator body
trace__ and its helpers match and callargs_repr are translated line by
line from the source; wall-clock time is modelled by the single
non-negative microsecond count that the source's end_time - start_time
truncation produces, and the output sink by the list of record strings
handed to it, in order.
-/

/-- Python runtime values as far as the tracer observes them: None, bools,
ints, strings, tuples, lists, sets, string-keyed dicts (kwargs dicts and
dict literals), and exception instances carrying their class name and
message. -/
inductive Val where
  | none
  | bool (b : Bool)
  | int (n : Int)
  | str (s : String)
  | tuple (elems : List Val)
  | list (elems : List Val)
  | set (elems : List Val)
  | dict (entries : List (String × Val))
  | exc (cls : String) (msg : String)

/-- The source's "x is None" identity test: true exactly on the None value. -/
def Val.isNone : Val → Bool
  | Val.none => true
  | _ => false

/-- Python truthiness: None, False, 0, and empty strings and collections are
falsy; everything else (exception instances included) is truthy. -/
def pyTruthy : Val → Bool
  | Val.none => false
  | Val.bool b => b
  | Val.int n => n != 0
  | Val.str s => !s.isEmpty
  | Val.tuple xs => !xs.isEmpty
  | Val.list xs => !xs.isEmpty
  | Val.set xs => !xs.isEmpty
  | Val.dict xs => !xs.isEmpty
  | Val.exc _ _ => true

mutual

/-- Python repr of a Val, as the default formatter _repr prints values:
None, True, decimal ints, quoted strings, tuples with the trailing comma on
singletons, lists, sets (an empty set prints as set()), dicts with quoted
keys, and the conventional repr of an exception instance. -/
def pyRepr : Val → String
  | Val.none => "None"
  | Val.bool true => "True"
  | Val.bool false => "False"
  | Val.int n => toString n
  | Val.str s => "\x27" ++ s ++ "\x27"
  | Val.tuple [] => "()"
  | Val.tuple [x] => "(" ++ pyRepr x ++ ",)"
  | Val.tuple (x :: y :: xs) => "(" ++ String.intercalate ", " (pyReprList (x :: y :: xs)) ++ ")"
  | Val.list xs => "[" ++ String.intercalate ", " (pyReprList xs) ++ "]"
  | Val.set [] => "set()"
  | Val.set (x :: xs) => "\x7b" ++ String.intercalate ", " (pyReprList (x :: xs)) ++ "\x7d"
  | Val.dict xs => "\x7b" ++ String.intercalate ", " (pyReprPairs xs) ++ "\x7d"
  | Val.exc cls msg => cls ++ "(\x27" ++ msg ++ "\x27)"

/-- Each element's repr, for rendering a collection. -/
def pyReprList : List Val → List String
  | [] => []
  | x :: xs => pyRepr x :: pyReprList xs

/-- Each dict entry rendered as quoted key, colon, value repr. -/
def pyReprPairs : List (String × Val) → List String
  | [] => []
  | (k, v) :: xs => ("\x27" ++ k ++ "\x27: " ++ pyRepr v) :: pyReprPairs xs

end

mutual

/-- Python equality between two Vals: numeric equality identifies True with 1
and False with 0, tuples, lists and sets compare elementwise, dicts compare
entrywise (exact for the distinct-key, same-order dicts arising here), and
exception instances compare by class and message. -/
def pyEq : Val → Val → Bool
  | Val.none, Val.none => true
  | Val.bool a, Val.bool b => a == b
  | Val.bool a, Val.int n => (if a then (1 : Int) else 0) == n
  | Val.int n, Val.bool b => n == (if b then (1 : Int) else 0)
  | Val.int a, Val.int b => a == b
  | Val.str a, Val.str b => a == b
  | Val.tuple a, Val.tuple b => pyEqList a b
  | Val.list a, Val.list b => pyEqList a b
  | Val.set a, Val.set b => pyEqList a b
  | Val.dict a, Val.dict b => pyEqPairs a b
  | Val.exc c m, Val.exc c2 m2 => c == c2 && m == m2
  | _, _ => false

/-- Elementwise Python equality of two element lists. -/
def pyEqList : List Val → List Val → Bool
  | [], [] => true
  | x :: xs, y :: ys => pyEq x y && pyEqList xs ys
  | _, _ => false

/-- Entrywise Python equality of two dict entry lists. -/
def pyEqPairs : List (String × Val) → List (String × Val) → Bool
  | [], [] => true
  | (k, v) :: xs, (k2, v2) :: ys => k == k2 && pyEq v v2 && pyEqPairs xs ys
  | _, _ => false

end

/-- Contiguous-sublist test on character lists, for Python's substring
containment between strings. -/
def subChars (t : List Char) : List Char → Bool
  | [] => t.isEmpty
  | c :: rest => ((c :: rest).take t.length == t) || subChars t rest

/-- Python membership "v in c" for the container values the tracer's match
can receive: tuples, lists and sets test elementwise equality, dicts test
the keys, and a string contains exactly its substrings. -/
def pyIn (v : Val) : Val → Bool
  | Val.tuple xs => xs.any (fun e => pyEq v e)
  | Val.list xs => xs.any (fun e => pyEq v e)
  | Val.set xs => xs.any (fun e => pyEq v e)
  | Val.dict ps => ps.any (fun kv => pyEq v (Val.str kv.1))
  | Val.str s =>
    match v with
    | Val.str t => subChars t.data s.data
    | _ => false
  | _ => false

/-- The isinstance(onX, Iterable) test of the source: strings, tuples,
lists, sets and dicts are iterable, nothing else here is. -/
def pyIterable : Val → Bool
  | Val.str _ => true
  | Val.tuple _ => true
  | Val.list _ => true
  | Val.set _ => true
  | Val.dict _ => true
  | _ => false

/-- A predicate configuration value as the decorator receives it: either a
plain Python value or a callable evaluator (callables are always truthy and
never iterable). -/
inductive PyCfg where
  | v (x : Val)
  | f (g : Val → Val)

/-- Truthiness of a configuration value; a callable is truthy. -/
def cfgTruthy : PyCfg → Bool
  | PyCfg.v x => pyTruthy x
  | PyCfg.f _ => true

/-- The source's match(onX, val), lines 48-57: a falsy configuration never
matches; the value True always matches; a callable's result decides by its
truthiness (the call sites use the returned value under "if"); an iterable
tests containment; any other value tests Python equality. -/
def matchB (onX : PyCfg) (val : Val) : Bool :=
  if !cfgTruthy onX then false
  else
    match onX with
    | PyCfg.v (Val.bool true) => true
    | PyCfg.f g => pyTruthy (g val)
    | PyCfg.v x => if pyIterable x then pyIn val x else pyEq x val

/-- The default value formatter _repr (source lines 29-30): ignores the
name and returns repr(value). -/
def _repr (_nm : Option String) (value : Val) : String := pyRepr value

/-- What inspect.getargspec returns for the wrapped callable: declared
parameter names in order, the trailing default values, and the optional
names of the star-args and star-star-kwargs catch-alls. -/
structure ArgSpec where
  args : List String
  defaults : List Val
  varargs : Option String
  keywords : Option String

/-- Source lines 62-65: the per-parameter default list, padded on the left
with None for parameters that declare no default. -/
def paddedDefaults (spec : ArgSpec) : List Val :=
  if spec.defaults.isEmpty then List.replicate spec.args.length Val.none
  else List.replicate (spec.args.length - spec.defaults.length) Val.none ++ spec.defaults

/-- Source line 66: parameter names zipped with their (padded) defaults. -/
def args_defaults (spec : ArgSpec) : List (String × Val) :=
  List.zip spec.args (paddedDefaults spec)

/-- Source lines 69-70: the actual positional arguments aligned against the
declared parameters, truncated to the declared count and padded with None. -/
def argsPosition (spec : ArgSpec) (args : List Val) : List Val :=
  args.take spec.args.length ++ List.replicate (spec.args.length - args.length) Val.none

/-- Source lines 71-73: the declared-parameter bindings before the keyword
overlay; a parameter whose aligned positional value is None gets its
declared default instead.  The OrderedDict is modelled as the association
list in declaration order (Python parameter names are distinct). -/
def argsData0 (spec : ArgSpec) (args : List Val) : List (String × Val) :=
  (List.zip (args_defaults spec) (argsPosition spec args)).map
    (fun x => (x.1.1, if (x.2).isNone then x.1.2 else x.2))

/-- One step of the keyword overlay of source lines 74-76: if the keyword
names a bound parameter, overwrite that parameter's value in place. -/
def updOnce (ad : List (String × Val)) (kv : String × Val) : List (String × Val) :=
  if ad.any (fun p => p.1 == kv.1) then
    ad.map (fun p => if p.1 == kv.1 then (p.1, kv.2) else p)
  else ad

/-- Source lines 74-76: the declared-parameter bindings after overlaying
every keyword argument that names a declared parameter. -/
def argsData (spec : ArgSpec) (args : List Val) (kwargs : List (String × Val)) :
    List (String × Val) :=
  kwargs.foldl updOnce (argsData0 spec args)

/-- Source lines 77-79: the keyword arguments naming no declared parameter.
The source builds this from a set difference whose iteration order is
unspecified; the model keeps the kwargs order. -/
def varKwargs (spec : ArgSpec) (args : List Val) (kwargs : List (String × Val)) :
    List (String × Val) :=
  kwargs.filter (fun kv => !(argsData spec args kwargs).any (fun p => p.1 == kv.1))

/-- Source line 80: the positional arguments beyond the declared count. -/
def varArgs (spec : ArgSpec) (args : List Val) : List Val :=
  args.drop spec.args.length

/-- Source lines 68-90, callargs_repr: renders the resolved call binding as
"name=value" fragments joined by commas, appending the starred catch-all
entries when the signature declares them; every rendered value goes through
the configured formatter with its (possibly starred) parameter name. -/
def callargs_repr (spec : ArgSpec) (xfrm : Option String → Val → String)
    (args : List Val) (kwargs : List (String × Val)) : String :=
  let ad := argsData spec args kwargs
  let arglist := ad.map (fun kv => kv.1 ++ "=" ++ xfrm (some kv.1) kv.2)
  let arglist := arglist ++
    (match spec.varargs with
     | some nm => ["*" ++ nm ++ "=" ++ xfrm (some ("*" ++ nm)) (Val.tuple (varArgs spec args))]
     | Option.none => [])
  let arglist := arglist ++
    (match spec.keywords with
     | some nm =>
       ["**" ++ nm ++ "=" ++ xfrm (some ("**" ++ nm)) (Val.dict (varKwargs spec args kwargs))]
     | Option.none => [])
  String.intercalate ", " arglist

/-- What one invocation of the wrapped callable does: return a value, raise
an Exception instance, or raise a BaseException that is not an Exception
(so the source's "except Exception" clause does not catch it). -/
inductive Outcome where
  | ret (v : Val)
  | exc (cls : String) (msg : String)
  | baseRaise (cls : String) (msg : String)

/-- The decoration-time configuration of source line 32: the three
predicates and the timing flag (the output sink is modelled by collecting
the record strings, and the formatter is passed alongside). -/
structure TraceCfg where
  oncall : PyCfg
  onexception : PyCfg
  onreturn : PyCfg
  timing : Bool

/-- The " (N usecs)" suffix of source line 96 for the truncated non-negative
elapsed microsecond count. -/
def usecsSuffix (n : Nat) : String := " (" ++ toString n ++ " usecs)"

/-- The (args, kwargs) pair that source line 105 passes to the on-call
predicate. -/
def pairVal (args : List Val) (kwargs : List (String × Val)) : Val :=
  Val.tuple [Val.tuple args, Val.dict kwargs]

/-- Source lines 92-136, the wrapper trace__.  Note line 102 calls
callargs_repr(args, kwargs) with two positional arguments rather than
splatting them, so the rendered argument string is computed from the
two-element positional list [args-tuple, kwargs-dict] and an empty keyword
dict; the memoised callargs_str is modelled by the single let binding.
Returns the records emitted to the output sink in order, paired with the
propagated outcome. -/
def trace__ (cfg : TraceCfg) (fname : String) (spec : ArgSpec)
    (xfrm : Option String → Val → String)
    (func : List Val → List (String × Val) → Outcome)
    (args : List Val) (kwargs : List (String × Val)) (elapsed : Nat) :
    List String × Outcome :=
  let cstr := callargs_repr spec xfrm [Val.tuple args, Val.dict kwargs] []
  let entr_done := matchB cfg.oncall (pairVal args kwargs)
  let entry := if entr_done then ["entr " ++ (fname ++ "(" ++ cstr ++ ")")] else []
  let tstr := if cfg.timing then usecsSuffix elapsed else ""
  match func args kwargs with
  | Outcome.ret v =>
      (entry ++
        (if matchB cfg.onreturn v then
          [if entr_done then "exit " ++ (fname ++ " = " ++ xfrm Option.none v ++ tstr)
           else "call " ++ (fname ++ "(" ++ cstr ++ ") = " ++ xfrm Option.none v ++ tstr)]
         else []), Outcome.ret v)
  | Outcome.exc cls msg =>
      (entry ++
        (if matchB cfg.onexception (Val.exc cls msg) then
          [if entr_done then "excp " ++ (fname ++ " raised " ++ cls ++ " " ++ msg ++ tstr)
           else "cexp " ++ (fname ++ "(" ++ cstr ++ ") raised " ++ cls ++ " " ++ msg ++ tstr)]
         else []), Outcome.exc cls msg)
  | Outcome.baseRaise cls msg => (entry, Outcome.baseRaise cls msg)

/-- The default configuration of source line 32: oncall, onexception and
onreturn all True, timing off. -/
def defaultCfg : TraceCfg :=
  ⟨PyCfg.v (Val.bool true), PyCfg.v (Val.bool true), PyCfg.v (Val.bool true), false⟩

/-- The signature of a function declared as f(a, b=2). -/
def specAB : ArgSpec := ⟨["a", "b"], [Val.int 2], Option.none, Option.none⟩

/-- The signature of a zero-parameter function. -/
def spec0 : ArgSpec := ⟨[], [], Option.none, Option.none⟩

/-- The signature of a function declared as f(a=5). -/
def specA5 : ArgSpec := ⟨["a"], [Val.int 5], Option.none, Option.none⟩

/-- The value the keyword overlay of lines 74-76 leaves for a parameter
name: the value of the last keyword argument with that name, if any (later
keyword entries overwrite earlier ones). -/
def lastVal : List (String × Val) → String → Option Val
  | [], _ => Option.none
  | p :: rest, k =>
    match lastVal rest k with
    | some v => some v
    | Option.none => if p.1 == k then some p.2 else Option.none

/-- The sequence of (name, value) pairs that callargs_repr hands to the
configured formatter, in order: one per declared-parameter binding with
that parameter's name, then the starred catch-all entries the signature
declares. -/
def xfrmLog (spec : ArgSpec) (args : List Val) (kwargs : List (String × Val)) :
    List (Option String × Val) :=
  (argsData spec args kwargs).map (fun kv => ((some kv.1 : Option String), kv.2))
  ++ (match spec.varargs with
      | some nm => [((some ("*" ++ nm) : Option String), Val.tuple (varArgs spec args))]
      | Option.none => [])
  ++ (match spec.keywords with
      | some nm =>
        [((some ("**" ++ nm) : Option String), Val.dict (varKwargs spec args kwargs))]
      | Option.none => [])

/-- The five-character kind tag at the head of a record string ("entr ",
"exit ", "call ", "excp " or "cexp "). -/
def recTag (r : String) : List Char := r.data.take 5

/-- How many records of a list carry the given kind tag. -/
def countTag (rs : List String) (t : List Char) : Nat :=
  rs.countP (fun r => recTag r == t)

/-- The entry-record tag. -/
def entrT : List Char := "entr ".data

/-- The exit-after-entry record tag. -/
def exitT : List Char := "exit ".data

/-- The combined call-and-result record tag. -/
def callT : List Char := "call ".data

/-- The exception-after-entry record tag. -/
def excpT : List Char := "excp ".data

/-- The combined call-and-exception record tag. -/
def cexpT : List Char := "cexp ".data

/-- Whether a record string ends with the " usecs)" tail of the timing
suffix. -/
def endsWithUsecs (s : String) : Bool := List.isSuffixOf " usecs)".data s.data

/-- One overlay step changes values only, pointwise: the entry at index i
keeps its key, and its value becomes the keyword's exactly when the keys
agree. -/
lemma updOnce_getElem? (ad : List (String × Val)) (kv : String × Val) (i : Nat) :
    (updOnce ad kv)[i]? = ad[i]?.map (fun p => if p.1 == kv.1 then (p.1, kv.2) else p) := by
  unfold updOnce
  cases h : ad.any (fun p => p.1 == kv.1) with
  | true => simp [h, List.getElem?_map]
  | false =>
    simp only [h, Bool.false_eq_true, if_false]
    cases hg : ad[i]? with
    | none => simp
    | some p =>
      have hp : p ∈ ad := by
        rw [List.getElem?_eq_some] at hg
        obtain ⟨hlt, hv⟩ := hg
        exact hv ▸ List.getElem_mem hlt
      have hk : p.1 ≠ kv.1 := by
        intro he
        have : ad.any (fun p => p.1 == kv.1) = true :=
          List.any_eq_true.mpr ⟨p, hp, beq_iff_eq.mpr he⟩
        rw [this] at h
        exact absurd h (by simp)
      simp [hk]

/-- Unfolding equation of lastVal on a nonempty keyword list. -/
lemma lastVal_cons (p : String × Val) (rest : List (String × Val)) (k : String) :
    lastVal (p :: rest) k
      = match lastVal rest k with
        | some v => some v
        | Option.none => if p.1 == k then some p.2 else Option.none := rfl

/-- The whole keyword overlay, pointwise: each binding keeps its key and
ends at the last keyword value supplied for that key, else its old value. -/
lemma overlay_getElem? (kwargs : List (String × Val)) (ad : List (String × Val)) (i : Nat) :
    (kwargs.foldl updOnce ad)[i]? = ad[i]?.map (fun p => (p.1, (lastVal kwargs p.1).getD p.2)) := by
  induction kwargs generalizing ad with
  | nil =>
    cases hg : ad[i]? with
    | none => simp [hg, lastVal]
    | some p => simp [hg, lastVal]
  | cons kv rest ih =>
    rw [List.foldl_cons, ih, updOnce_getElem?]
    cases hg : ad[i]? with
    | none => simp
    | some p =>
      simp only [Option.map_some']
      by_cases hpk : p.1 = kv.1
      · cases hl : lastVal rest p.1 with
        | none => rw [hpk] at hl; simp [lastVal_cons, hl, hpk]
        | some w => rw [hpk] at hl; simp [lastVal_cons, hl, hpk]
      · cases hl : lastVal rest p.1 with
        | none => simp [lastVal_cons, hl, hpk, Ne.symm hpk]
        | some w => simp [lastVal_cons, hl, hpk, Ne.symm hpk]

/-- An overlay step does not change the key sequence. -/
lemma updOnce_map_fst (ad : List (String × Val)) (kv : String × Val) :
    (updOnce ad kv).map Prod.fst = ad.map Prod.fst := by
  unfold updOnce
  cases h : ad.any (fun p => p.1 == kv.1) with
  | false => simp [h]
  | true =>
    simp only [h, if_true, List.map_map]
    have : (Prod.fst ∘ fun p : String × Val => if p.1 == kv.1 then (p.1, kv.2) else p)
        = Prod.fst := by
      funext p
      by_cases hc : p.1 = kv.1 <;> simp [hc]
    rw [this]

/-- The keyword overlay does not change the key sequence. -/
lemma overlay_map_fst (kwargs : List (String × Val)) (ad : List (String × Val)) :
    (kwargs.foldl updOnce ad).map Prod.fst = ad.map Prod.fst := by
  induction kwargs generalizing ad with
  | nil => rfl
  | cons kv rest ih => rw [List.foldl_cons, ih, updOnce_map_fst]

/-- The padded default list covers every declared parameter. -/
lemma paddedDefaults_length_ge (spec : ArgSpec) :
    spec.args.length ≤ (paddedDefaults spec).length := by
  unfold paddedDefaults
  split <;> simp <;> omega

/-- The aligned positional list has exactly one slot per declared parameter. -/
lemma argsPosition_length (spec : ArgSpec) (args : List Val) :
    (argsPosition spec args).length = spec.args.length := by
  unfold argsPosition
  simp [List.length_take]
  omega

/-- Indexing a zip of two lists that are both defined at the index. -/
lemma zip_getElem?_some {α β : Type} {l₁ : List α} {l₂ : List β} {i : Nat} {a : α} {b : β}
    (h₁ : l₁[i]? = some a) (h₂ : l₂[i]? = some b) : (l₁.zip l₂)[i]? = some (a, b) := by
  induction l₁ generalizing l₂ i with
  | nil => simp at h₁
  | cons x xs ih =>
    cases l₂ with
    | nil => simp at h₂
    | cons y ys =>
      cases i with
      | zero =>
        simp at h₁ h₂
        simp [List.zip_cons_cons, h₁, h₂]
      | succ n =>
        simp at h₁ h₂
        simpa [List.zip_cons_cons] using ih h₁ h₂

/-- Indexing the name-default pair list at a defined position. -/
lemma args_defaults_getElem? (spec : ArgSpec) (i : Nat) (nm : String) (d : Val)
    (h1 : spec.args[i]? = some nm) (h2 : (paddedDefaults spec)[i]? = some d) :
    (args_defaults spec)[i]? = some (nm, d) :=
  zip_getElem?_some h1 h2

/-- Within the declared parameter count, the aligned positional slot holds
the actual argument at that index, or None when fewer were supplied. -/
lemma argsPosition_getElem? (spec : ArgSpec) (args : List Val) (i : Nat)
    (hi : i < spec.args.length) :
    (argsPosition spec args)[i]? = some (args.getD i Val.none) := by
  unfold argsPosition
  rw [List.getElem?_append, List.length_take]
  by_cases hlen : i < args.length
  · have hmin : i < min spec.args.length args.length := by omega
    rw [if_pos hmin, List.getElem?_take, if_pos hi,
      List.getD_eq_getElem?_getD, List.getElem?_eq_getElem hlen]
    rfl
  · have hmin : ¬ i < min spec.args.length args.length := by omega
    rw [if_neg hmin, List.getElem?_replicate,
      if_pos (by omega : i - min spec.args.length args.length
        < spec.args.length - args.length),
      List.getD_eq_getElem?_getD, List.getElem?_eq_none (by omega)]
    rfl

/-- The pre-overlay binding at a declared index: the parameter's name,
paired with the aligned positional value unless that value is None, in
which case the padded default. -/
lemma argsData0_getElem? (spec : ArgSpec) (args : List Val) (i : Nat) (nm : String) (d : Val)
    (h1 : spec.args[i]? = some nm) (h2 : (paddedDefaults spec)[i]? = some d) :
    (argsData0 spec args)[i]?
      = some (nm, if (args.getD i Val.none).isNone then d else args.getD i Val.none) := by
  have hi : i < spec.args.length := (List.getElem?_eq_some.mp h1).1
  unfold argsData0
  rw [List.getElem?_map,
    zip_getElem?_some (args_defaults_getElem? spec i nm d h1 h2)
      (argsPosition_getElem? spec args i hi)]
  rfl

/-- The resolved binding at a declared index: the name, with the last
matching keyword value if one was supplied, else the positional value
unless it is None, else the padded default. -/
lemma argsData_getElem? (spec : ArgSpec) (args : List Val) (kwargs : List (String × Val))
    (i : Nat) (nm : String) (d : Val)
    (h1 : spec.args[i]? = some nm) (h2 : (paddedDefaults spec)[i]? = some d) :
    (argsData spec args kwargs)[i]?
      = some (nm, (lastVal kwargs nm).getD
          (if (args.getD i Val.none).isNone then d else args.getD i Val.none)) := by
  unfold argsData
  rw [overlay_getElem?, argsData0_getElem? spec args i nm d h1 h2]
  rfl

/-- The pre-overlay binding lists exactly the declared parameter names, in
declaration order. -/
lemma argsData0_map_fst (spec : ArgSpec) (args : List Val) :
    (argsData0 spec args).map Prod.fst = spec.args := by
  unfold argsData0
  rw [List.map_map]
  have hfun : (Prod.fst ∘ fun x : (String × Val) × Val =>
      (x.1.1, if (x.2).isNone then x.1.2 else x.2)) = (Prod.fst ∘ Prod.fst) := rfl
  rw [hfun, ← List.map_map,
    List.map_fst_zip _ _ (by
      unfold args_defaults
      rw [List.length_zip, argsPosition_length]
      have := paddedDefaults_length_ge spec
      omega)]
  unfold args_defaults
  exact List.map_fst_zip _ _ (paddedDefaults_length_ge spec)

/-- The resolved binding lists exactly the declared parameter names, in
declaration order. -/
lemma argsData_map_fst (spec : ArgSpec) (args : List Val) (kwargs : List (String × Val)) :
    (argsData spec args kwargs).map Prod.fst = spec.args := by
  unfold argsData
  rw [overlay_map_fst, argsData0_map_fst]

/-- The resolved binding has exactly one entry per declared parameter. -/
lemma argsData_length (spec : ArgSpec) (args : List Val) (kwargs : List (String × Val)) :
    (argsData spec args kwargs).length = spec.args.length := by
  have h := congrArg List.length (argsData_map_fst spec args kwargs)
  simpa using h

/-- A keyword argument naming no declared parameter lands in the
extra-keyword mapping. -/
lemma varKwargs_mem (spec : ArgSpec) (args : List Val) (kwargs : List (String × Val))
    (kv : String × Val) (hm : kv ∈ kwargs) (hn : kv.1 ∉ spec.args) :
    kv ∈ varKwargs spec args kwargs := by
  unfold varKwargs
  rw [List.mem_filter]
  refine ⟨hm, ?_⟩
  simp only [Bool.not_eq_eq_eq_not, Bool.not_true, List.any_eq_false]
  intro p hp
  simp only [beq_iff_eq]
  intro hpk
  apply hn
  rw [← hpk]
  have : p.1 ∈ (argsData spec args kwargs).map Prod.fst := List.mem_map_of_mem Prod.fst hp
  rwa [argsData_map_fst] at this

/-- A keyword list none of whose names is k supplies no last value for k. -/
lemma lastVal_eq_none (kwargs : List (String × Val)) (k : String)
    (h : ∀ kv ∈ kwargs, kv.1 ≠ k) : lastVal kwargs k = Option.none := by
  induction kwargs with
  | nil => rfl
  | cons p rest ih =>
    rw [lastVal_cons, ih (fun kv hm => h kv (List.mem_cons_of_mem p hm))]
    simp [h p (List.mem_cons_self p rest)]

/-- C1: evaluating the wrapper on a function declared f(a, b=2) called with
the single positional argument 1 under default predicates.  Because line
102 of the source passes the args tuple and kwargs dict to callargs_repr as
two positional arguments instead of splatting them, the emitted entry
record is "entr f(a=(1,), b={})" rather than the "entr f(a=1, b=2)" the
specification states; the exit record is "exit f = 3" as specified. -/
theorem C1_trace_eval_at_failing_input :
    trace__ defaultCfg "f" specAB _repr (fun _ _ => Outcome.ret (Val.int 3)) [Val.int 1] [] 0
      = (["entr f(a=(1,), b=\x7b\x7d)", "exit f = 3"], Outcome.ret (Val.int 3)) := by
  rfl

/-- C2: for every configuration, formatter, wrapped callable and argument
combination, the wrapper propagates the callable's outcome unchanged: the
returned value on success, and the very error that was raised (Exception
or not) on failure. -/
theorem C2_outcome_propagated_unchanged :
    ∀ (cfg : TraceCfg) (fname : String) (spec : ArgSpec)
      (xfrm : Option String → Val → String)
      (func : List Val → List (String × Val) → Outcome)
      (args : List Val) (kwargs : List (String × Val)) (elapsed : Nat),
      (trace__ cfg fname spec xfrm func args kwargs elapsed).2 = func args kwargs := by
  intro cfg fname spec xfrm func args kwargs elapsed
  cases hf : func args kwargs <;> simp [trace__, hf]

/-- C4 counterexample: for a callable declared f(a=5), supplying the
positional actual value None yields the rendered binding "a=5" — the
declared default — not the "a=None" that resolving by the claimed
precedence (actual supplied value first) would produce. -/
theorem C4_counterexample_none_positional :
    callargs_repr specA5 _repr [Val.none] [] = "a=5"
  ∧ ("a=5" : String) ≠ "a=None" := by
  exact ⟨rfl, by decide⟩

/-- C4 amended: for every callable with N declared parameters, M ≤ N
positional and K keyword actual arguments, the resolved binding has exactly
N entries carrying the declared names in declaration order; each entry
resolves to the last keyword argument of that name if one was supplied,
else to the aligned positional value unless that value is None, else to
the padded declared default (None standing for the unset marker); and
every keyword argument naming no declared parameter appears in the
extra-keyword mapping. -/
theorem C4_amended_binding_shape (spec : ArgSpec) (args : List Val)
    (kwargs : List (String × Val))
    (hM : args.length ≤ spec.args.length) (hnd : spec.args.Nodup) :
    ((argsData spec args kwargs).map Prod.fst = spec.args)
  ∧ ((argsData spec args kwargs).length = spec.args.length)
  ∧ (∀ (i : Nat) (nm : String) (d : Val),
      spec.args[i]? = some nm → (paddedDefaults spec)[i]? = some d →
      (argsData spec args kwargs)[i]?
        = some (nm, (lastVal kwargs nm).getD
            (if (args.getD i Val.none).isNone then d else args.getD i Val.none)))
  ∧ (∀ kv ∈ kwargs, kv.1 ∉ spec.args → kv ∈ varKwargs spec args kwargs) := by
  refine ⟨argsData_map_fst spec args kwargs, argsData_length spec args kwargs, ?_, ?_⟩
  · intro i nm d h1 h2
    exact argsData_getElem? spec args kwargs i nm d h1 h2
  · intro kv hm hn
    exact varKwargs_mem spec args kwargs kv hm hn

/-- C4 witness: the amended binding-shape theorem applied to f(a, b=2)
called with one positional argument and one unmatched keyword argument. -/
theorem C4_amended_binding_shape_witness :
    ([Val.int 1].length ≤ specAB.args.length)
  ∧ specAB.args.Nodup
  ∧ (argsData specAB [Val.int 1] [("z", Val.int 9)]).map Prod.fst = ["a", "b"]
  ∧ ("z", Val.int 9) ∈ varKwargs specAB [Val.int 1] [("z", Val.int 9)] := by
  have h := C4_amended_binding_shape specAB [Val.int 1] [("z", Val.int 9)]
    (by decide) (by decide)
  refine ⟨by decide, by decide, h.1, ?_⟩
  refine h.2.2.2 ("z", Val.int 9) (List.mem_cons_self _ _) ?_
  decide

/-- C5: the shared matching rule of the three predicates: a falsy (hence
disabled) configuration never matches; True always matches; a callable
matches exactly when its result is truthy; a membership container (set,
list or tuple) matches exactly containment — in particular the set
scenario with return value 9 emits no exit record; any other fixed value
(a nonzero int, an exception instance) matches by Python equality. -/
theorem C5_predicate_matching_rule :
    (∀ v : Val, matchB (PyCfg.v (Val.bool true)) v = true)
  ∧ (∀ (c : Val) (v : Val), pyTruthy c = false → matchB (PyCfg.v c) v = false)
  ∧ (∀ (g : Val → Val) (v : Val), matchB (PyCfg.f g) v = pyTruthy (g v))
  ∧ (∀ (xs : List Val) (v : Val), matchB (PyCfg.v (Val.set xs)) v = pyIn v (Val.set xs))
  ∧ (∀ (xs : List Val) (v : Val), matchB (PyCfg.v (Val.list xs)) v = pyIn v (Val.list xs))
  ∧ (∀ (xs : List Val) (v : Val), matchB (PyCfg.v (Val.tuple xs)) v = pyIn v (Val.tuple xs))
  ∧ (∀ (n : Int) (v : Val), n ≠ 0 → matchB (PyCfg.v (Val.int n)) v = pyEq (Val.int n) v)
  ∧ (∀ (cls msg : String) (v : Val),
      matchB (PyCfg.v (Val.exc cls msg)) v = pyEq (Val.exc cls msg) v)
  ∧ (trace__ ⟨PyCfg.v (Val.bool true), PyCfg.v (Val.bool true),
        PyCfg.v (Val.set [Val.int 2, Val.int 3, Val.int 4]), false⟩ "f" spec0 _repr
        (fun _ _ => Outcome.ret (Val.int 9)) [] [] 0).1 = ["entr f()"] := by
  refine ⟨fun v => rfl, ?_, fun g v => rfl, ?_, ?_, ?_, ?_, fun cls msg v => rfl, rfl⟩
  · intro c v h
    simp [matchB, cfgTruthy, h]
  · intro xs v
    cases xs <;> rfl
  · intro xs v
    cases xs <;> rfl
  · intro xs v
    cases xs <;> rfl
  · intro n v h
    simp [matchB, cfgTruthy, pyTruthy, pyIterable, bne_iff_ne.mpr h]

/-- C8: a falsy configuration value other than None (an empty set, zero,
the empty string, False) never matches any runtime value, and is
behaviourally identical to the disabled (None or False) configuration,
in each of the three predicate roles of the wrapper. -/
theorem C8_falsy_config_is_disabled (c : Val)
    (h1 : pyTruthy c = false) (h2 : c ≠ Val.none) :
    (∀ v : Val, matchB (PyCfg.v c) v = false)
  ∧ (∀ v : Val, matchB (PyCfg.v c) v = matchB (PyCfg.v Val.none) v)
  ∧ (∀ v : Val, matchB (PyCfg.v c) v = matchB (PyCfg.v (Val.bool false)) v)
  ∧ (∀ (oe ore : PyCfg) (tmg : Bool) (fname : String) (spec : ArgSpec)
      (xfrm : Option String → Val → String)
      (func : List Val → List (String × Val) → Outcome)
      (args : List Val) (kwargs : List (String × Val)) (elapsed : Nat),
      trace__ ⟨PyCfg.v c, oe, ore, tmg⟩ fname spec xfrm func args kwargs elapsed
        = trace__ ⟨PyCfg.v Val.none, oe, ore, tmg⟩ fname spec xfrm func args kwargs elapsed)
  ∧ (∀ (oc ore : PyCfg) (tmg : Bool) (fname : String) (spec : ArgSpec)
      (xfrm : Option String → Val → String)
      (func : List Val → List (String × Val) → Outcome)
      (args : List Val) (kwargs : List (String × Val)) (elapsed : Nat),
      trace__ ⟨oc, PyCfg.v c, ore, tmg⟩ fname spec xfrm func args kwargs elapsed
        = trace__ ⟨oc, PyCfg.v Val.none, ore, tmg⟩ fname spec xfrm func args kwargs elapsed)
  ∧ (∀ (oc oe : PyCfg) (tmg : Bool) (fname : String) (spec : ArgSpec)
      (xfrm : Option String → Val → String)
      (func : List Val → List (String × Val) → Outcome)
      (args : List Val) (kwargs : List (String × Val)) (elapsed : Nat),
      trace__ ⟨oc, oe, PyCfg.v c, tmg⟩ fname spec xfrm func args kwargs elapsed
        = trace__ ⟨oc, oe, PyCfg.v Val.none, tmg⟩ fname spec xfrm func args kwargs elapsed) := by
  have hm : ∀ v : Val, matchB (PyCfg.v c) v = false := by
    intro v
    simp [matchB, cfgTruthy, h1]
  have hm0 : ∀ v : Val, matchB (PyCfg.v Val.none) v = false := fun v => rfl
  refine ⟨hm, fun v => by rw [hm, hm0], fun v => by rw [hm]; rfl, ?_, ?_, ?_⟩
  · intro oe ore tmg fname spec xfrm func args kwargs elapsed
    cases hf : func args kwargs <;> simp [trace__, hf, hm, hm0]
  · intro oc ore tmg fname spec xfrm func args kwargs elapsed
    cases hf : func args kwargs <;> simp [trace__, hf, hm, hm0]
  · intro oc oe tmg fname spec xfrm func args kwargs elapsed
    cases hf : func args kwargs <;> simp [trace__, hf, hm, hm0]

/-- C8 witness: the falsy-configuration theorem applied to the empty set
and the runtime value 0. -/
theorem C8_falsy_config_is_disabled_witness :
    pyTruthy (Val.set []) = false
  ∧ Val.set [] ≠ Val.none
  ∧ matchB (PyCfg.v (Val.set [])) (Val.int 0) = false := by
  refine ⟨rfl, fun h => Val.noConfusion h, ?_⟩
  exact (C8_falsy_config_is_disabled (Val.set []) rfl (fun h => Val.noConfusion h)).1 (Val.int 0)

/-- C10 counterexample: for f(a=5) called with the positional value None
and the keyword argument a=7, the rendered binding is "a=7" — neither the
declared default "a=5" nor the supplied "a=None" the claim asserts for a
parameter whose aligned positional value is None. -/
theorem C10_counterexample_kwarg_overrides :
    callargs_repr specA5 _repr [Val.none] [("a", Val.int 7)] = "a=7"
  ∧ ("a=7" : String) ≠ "a=5"
  ∧ ("a=7" : String) ≠ "a=None" := by
  exact ⟨rfl, by decide, by decide⟩

/-- C10 amended: in the binding resolver a positional None is treated as
absent: when no keyword argument supplies the parameter, a declared
parameter whose aligned positional value is None resolves to its padded
declared default (None when it declares none); and a trailing positional
None renders identically to omitting that argument altogether. -/
theorem C10_amended_none_positional_as_absent (spec : ArgSpec)
    (xfrm : Option String → Val → String)
    (args : List Val) (kwargs : List (String × Val)) (i : Nat)
    (hi : i < spec.args.length)
    (hpos : args[i]? = some Val.none)
    (hnk : ∀ kv ∈ kwargs, kv.1 ≠ spec.args.getD i "") :
    (∀ (nm : String) (d : Val),
      spec.args[i]? = some nm → (paddedDefaults spec)[i]? = some d →
      (argsData spec args kwargs)[i]? = some (nm, d))
  ∧ (args.length = i + 1 →
      callargs_repr spec xfrm args kwargs = callargs_repr spec xfrm (args.take i) kwargs) := by
  constructor
  · intro nm d h1 h2
    have hgd : args.getD i Val.none = Val.none := by
      rw [List.getD_eq_getElem?_getD, hpos]
      rfl
    have hnm : nm = spec.args.getD i "" := by
      rw [List.getD_eq_getElem?_getD, h1]
      rfl
    have hnk2 : ∀ kv ∈ kwargs, kv.1 ≠ nm := by
      intro kv hm
      rw [hnm]
      exact hnk kv hm
    rw [argsData_getElem? spec args kwargs i nm d h1 h2, hgd,
      lastVal_eq_none kwargs nm hnk2]
    rfl
  · intro hlen
    have hAP : argsPosition spec args = argsPosition spec (args.take i) := by
      apply List.ext_getElem?
      intro j
      by_cases hj : j < spec.args.length
      · rw [argsPosition_getElem? spec args j hj,
          argsPosition_getElem? spec (args.take i) j hj]
        have hgd : args.getD j Val.none = (args.take i).getD j Val.none := by
          rw [List.getD_eq_getElem?_getD, List.getD_eq_getElem?_getD, List.getElem?_take]
          by_cases hji : j < i
          · rw [if_pos hji]
          · rw [if_neg hji]
            by_cases hje : j = i
            · rw [hje, hpos]
              rfl
            · rw [List.getElem?_eq_none (by omega)]
        rw [hgd]
      · rw [List.getElem?_eq_none (by rw [argsPosition_length]; omega),
          List.getElem?_eq_none (by rw [argsPosition_length]; omega)]
    have h0 : argsData0 spec args = argsData0 spec (args.take i) := by
      unfold argsData0
      rw [hAP]
    have h1 : argsData spec args kwargs = argsData spec (args.take i) kwargs := by
      unfold argsData
      rw [h0]
    have h2 : varKwargs spec args kwargs = varKwargs spec (args.take i) kwargs := by
      unfold varKwargs
      rw [h1]
    have h3 : varArgs spec args = varArgs spec (args.take i) := by
      unfold varArgs
      rw [List.drop_eq_nil_of_le (by omega),
        List.drop_eq_nil_of_le (by rw [List.length_take]; omega)]
    simp only [callargs_repr]
    rw [h1, h2, h3]

/-- C10 witness: the amended theorem applied to f(a=5) called with the
single positional argument None, whose report coincides with that of
calling with no arguments. -/
theorem C10_amended_none_positional_witness :
    (0 < specA5.args.length)
  ∧ (([Val.none] : List Val)[0]? = some Val.none)
  ∧ ((argsData specA5 [Val.none] [])[0]? = some ("a", Val.int 5))
  ∧ callargs_repr specA5 _repr [Val.none] [] = callargs_repr specA5 _repr [] [] := by
  have h := C10_amended_none_positional_as_absent specA5 _repr [Val.none] [] 0
    (by decide) rfl (by intro kv hm; exact absurd hm (List.not_mem_nil kv))
  refine ⟨by decide, rfl, h.1 "a" (Val.int 5) rfl rfl, ?_⟩
  have h2 := h.2 rfl
  simpa using h2

/-- A record string built as a five-character tag followed by a body keeps
that tag at its head. -/
lemma recTag_of (t s : String) (h : t.data.length = 5) : recTag (t ++ s) = t.data := by
  unfold recTag
  rw [String.data_append, ← h, List.take_left]

/-- The empty record list carries no tag. -/
lemma countTag_nil (t : List Char) : countTag [] t = 0 := rfl

/-- Counting a tag over a cons of record strings. -/
lemma countTag_cons (r : String) (rest : List String) (t : List Char) :
    countTag (r :: rest) t = countTag rest t + (if recTag r == t then 1 else 0) := by
  unfold countTag
  rw [List.countP_cons]

/-- An entry record carries the entry tag. -/
lemma recTag_entr (s : String) : recTag ("entr " ++ s) = entrT :=
  recTag_of "entr " s (by decide)

/-- An exit record carries the exit tag. -/
lemma recTag_exit (s : String) : recTag ("exit " ++ s) = exitT :=
  recTag_of "exit " s (by decide)

/-- A combined call-and-result record carries the call tag. -/
lemma recTag_call (s : String) : recTag ("call " ++ s) = callT :=
  recTag_of "call " s (by decide)

/-- An exception-after-entry record carries the excp tag. -/
lemma recTag_excp (s : String) : recTag ("excp " ++ s) = excpT :=
  recTag_of "excp " s (by decide)

/-- A combined call-and-exception record carries the cexp tag. -/
lemma recTag_cexp (s : String) : recTag ("cexp " ++ s) = cexpT :=
  recTag_of "cexp " s (by decide)

/-- C3: an entry record is emitted exactly when the on-call predicate
matches the (args, kwargs) pair; on normal return exactly one exit-or-call
record is emitted exactly when the on-return predicate matches the return
value (and no error record); on a raised Exception exactly one
excp-or-cexp record is emitted exactly when the on-exception predicate
matches the error (and no exit record); and the total of return/error
records is unchanged under any replacement of the on-call predicate. -/
theorem C3_record_emission_iff :
    ∀ (cfg : TraceCfg) (fname : String) (spec : ArgSpec)
      (xfrm : Option String → Val → String)
      (func : List Val → List (String × Val) → Outcome)
      (args : List Val) (kwargs : List (String × Val)) (elapsed : Nat),
      (countTag (trace__ cfg fname spec xfrm func args kwargs elapsed).1 entrT
        = (if matchB cfg.oncall (pairVal args kwargs) then 1 else 0))
    ∧ (match func args kwargs with
       | Outcome.ret v =>
           countTag (trace__ cfg fname spec xfrm func args kwargs elapsed).1 exitT
             + countTag (trace__ cfg fname spec xfrm func args kwargs elapsed).1 callT
             = (if matchB cfg.onreturn v then 1 else 0)
           ∧ countTag (trace__ cfg fname spec xfrm func args kwargs elapsed).1 excpT
             + countTag (trace__ cfg fname spec xfrm func args kwargs elapsed).1 cexpT = 0
       | Outcome.exc cls msg =>
           countTag (trace__ cfg fname spec xfrm func args kwargs elapsed).1 excpT
             + countTag (trace__ cfg fname spec xfrm func args kwargs elapsed).1 cexpT
             = (if matchB cfg.onexception (Val.exc cls msg) then 1 else 0)
           ∧ countTag (trace__ cfg fname spec xfrm func args kwargs elapsed).1 exitT
             + countTag (trace__ cfg fname spec xfrm func args kwargs elapsed).1 callT = 0
       | Outcome.baseRaise _ _ =>
           countTag (trace__ cfg fname spec xfrm func args kwargs elapsed).1 exitT
             + countTag (trace__ cfg fname spec xfrm func args kwargs elapsed).1 callT = 0
           ∧ countTag (trace__ cfg fname spec xfrm func args kwargs elapsed).1 excpT
             + countTag (trace__ cfg fname spec xfrm func args kwargs elapsed).1 cexpT = 0)
    ∧ (∀ p : PyCfg,
        countTag (trace__ ⟨p, cfg.onexception, cfg.onreturn, cfg.timing⟩
            fname spec xfrm func args kwargs elapsed).1 exitT
          + countTag (trace__ ⟨p, cfg.onexception, cfg.onreturn, cfg.timing⟩
              fname spec xfrm func args kwargs elapsed).1 callT
          + countTag (trace__ ⟨p, cfg.onexception, cfg.onreturn, cfg.timing⟩
              fname spec xfrm func args kwargs elapsed).1 excpT
          + countTag (trace__ ⟨p, cfg.onexception, cfg.onreturn, cfg.timing⟩
              fname spec xfrm func args kwargs elapsed).1 cexpT
        = countTag (trace__ cfg fname spec xfrm func args kwargs elapsed).1 exitT
          + countTag (trace__ cfg fname spec xfrm func args kwargs elapsed).1 callT
          + countTag (trace__ cfg fname spec xfrm func args kwargs elapsed).1 excpT
          + countTag (trace__ cfg fname spec xfrm func args kwargs elapsed).1 cexpT) := by
  intro cfg fname spec xfrm func args kwargs elapsed
  obtain ⟨oc, oe, ore, tmg⟩ := cfg
  refine ⟨?_, ?_, ?_⟩
  · cases hf : func args kwargs with
    | ret v =>
      cases h1 : matchB oc (pairVal args kwargs) <;>
        cases h2 : matchB ore v <;>
        simp [trace__, hf, h1, h2, countTag_cons, countTag_nil, recTag_entr,
          recTag_exit, recTag_call, recTag_excp, recTag_cexp] <;> decide
    | exc cls msg =>
      cases h1 : matchB oc (pairVal args kwargs) <;>
        cases h2 : matchB oe (Val.exc cls msg) <;>
        simp [trace__, hf, h1, h2, countTag_cons, countTag_nil, recTag_entr,
          recTag_exit, recTag_call, recTag_excp, recTag_cexp] <;> decide
    | baseRaise cls msg =>
      cases h1 : matchB oc (pairVal args kwargs) <;>
        simp [trace__, hf, h1, countTag_cons, countTag_nil, recTag_entr,
          recTag_exit, recTag_call, recTag_excp, recTag_cexp] <;> decide
  · cases hf : func args kwargs with
    | ret v =>
      cases h1 : matchB oc (pairVal args kwargs) <;>
        cases h2 : matchB ore v <;>
        simp [trace__, hf, h1, h2, countTag_cons, countTag_nil, recTag_entr,
          recTag_exit, recTag_call, recTag_excp, recTag_cexp] <;> decide
    | exc cls msg =>
      cases h1 : matchB oc (pairVal args kwargs) <;>
        cases h2 : matchB oe (Val.exc cls msg) <;>
        simp [trace__, hf, h1, h2, countTag_cons, countTag_nil, recTag_entr,
          recTag_exit, recTag_call, recTag_excp, recTag_cexp] <;> decide
    | baseRaise cls msg =>
      cases h1 : matchB oc (pairVal args kwargs) <;>
        simp [trace__, hf, h1, countTag_cons, countTag_nil, recTag_entr,
          recTag_exit, recTag_call, recTag_excp, recTag_cexp] <;> decide
  · intro p
    cases hf : func args kwargs with
    | ret v =>
      cases h1 : matchB oc (pairVal args kwargs) <;>
        cases h1p : matchB p (pairVal args kwargs) <;>
        cases h2 : matchB ore v <;>
        simp [trace__, hf, h1, h1p, h2, countTag_cons, countTag_nil, recTag_entr,
          recTag_exit, recTag_call, recTag_excp, recTag_cexp] <;> decide
    | exc cls msg =>
      cases h1 : matchB oc (pairVal args kwargs) <;>
        cases h1p : matchB p (pairVal args kwargs) <;>
        cases h2 : matchB oe (Val.exc cls msg) <;>
        simp [trace__, hf, h1, h1p, h2, countTag_cons, countTag_nil, recTag_entr,
          recTag_exit, recTag_call, recTag_excp, recTag_cexp] <;> decide
    | baseRaise cls msg =>
      cases h1 : matchB oc (pairVal args kwargs) <;>
        cases h1p : matchB p (pairVal args kwargs) <;>
        simp [trace__, hf, h1, h1p, countTag_cons, countTag_nil, recTag_entr,
          recTag_exit, recTag_call, recTag_excp, recTag_cexp] <;> decide

/-- C6 counterexample: with timing enabled and default predicates, a call
that returns 1 after 7 measured microseconds emits the entry record
"entr f()" with no " (N usecs)" suffix — only the exit record carries it —
refuting the claim that every emitted record, the entry record included,
carries the suffix. -/
theorem C6_counterexample_entry_record_unsuffixed :
    (trace__ ⟨PyCfg.v (Val.bool true), PyCfg.v (Val.bool true), PyCfg.v (Val.bool true), true⟩
        "f" spec0 _repr (fun _ _ => Outcome.ret (Val.int 1)) [] [] 7).1
      = ["entr f()", "exit f = 1 (7 usecs)"]
  ∧ endsWithUsecs "entr f()" = false
  ∧ endsWithUsecs "exit f = 1 (7 usecs)" = true := by
  exact ⟨rfl, by decide, by decide⟩

/-- C6 amended: timing never changes which records are emitted or the
propagated outcome; the entry record is identical with and without timing;
and every post-call record (exit, call, excp or cexp) with timing enabled
is exactly the timing-disabled record with the " (elapsed usecs)" suffix
appended, elapsed being the non-negative measured microsecond count. -/
theorem C6_amended_timing_suffix :
    ∀ (oc oe ore : PyCfg) (fname : String) (spec : ArgSpec)
      (xfrm : Option String → Val → String)
      (func : List Val → List (String × Val) → Outcome)
      (args : List Val) (kwargs : List (String × Val)) (elapsed : Nat),
      ((trace__ ⟨oc, oe, ore, true⟩ fname spec xfrm func args kwargs elapsed).2
        = (trace__ ⟨oc, oe, ore, false⟩ fname spec xfrm func args kwargs elapsed).2)
    ∧ ((trace__ ⟨oc, oe, ore, true⟩ fname spec xfrm func args kwargs elapsed).1.length
        = (trace__ ⟨oc, oe, ore, false⟩ fname spec xfrm func args kwargs elapsed).1.length)
    ∧ ((trace__ ⟨oc, oe, ore, true⟩ fname spec xfrm func args kwargs elapsed).1.take
          (if matchB oc (pairVal args kwargs) then 1 else 0)
        = (trace__ ⟨oc, oe, ore, false⟩ fname spec xfrm func args kwargs elapsed).1.take
            (if matchB oc (pairVal args kwargs) then 1 else 0))
    ∧ ((trace__ ⟨oc, oe, ore, true⟩ fname spec xfrm func args kwargs elapsed).1.drop
          (if matchB oc (pairVal args kwargs) then 1 else 0)
        = ((trace__ ⟨oc, oe, ore, false⟩ fname spec xfrm func args kwargs elapsed).1.drop
            (if matchB oc (pairVal args kwargs) then 1 else 0)).map
              (fun r => r ++ usecsSuffix elapsed)) := by
  intro oc oe ore fname spec xfrm func args kwargs elapsed
  cases hf : func args kwargs with
  | ret v =>
    cases h1 : matchB oc (pairVal args kwargs) <;>
      cases h2 : matchB ore v <;>
      refine ⟨by simp [trace__, hf], ?_, ?_, ?_⟩ <;>
      simp [trace__, hf, h1, h2, String.append_assoc, String.append_empty]
  | exc cls msg =>
    cases h1 : matchB oc (pairVal args kwargs) <;>
      cases h2 : matchB oe (Val.exc cls msg) <;>
      refine ⟨by simp [trace__, hf], ?_, ?_, ?_⟩ <;>
      simp [trace__, hf, h1, h2, String.append_assoc, String.append_empty]
  | baseRaise cls msg =>
    cases h1 : matchB oc (pairVal args kwargs) <;>
      refine ⟨by simp [trace__, hf], ?_, ?_, ?_⟩ <;>
      simp [trace__, hf, h1]

/-- C7 counterexample: with a formatter that renders every value as "ZZZ",
a wrapped zero-parameter function raising ValueError("bad") produces the
error record "excp f raised ValueError bad" — the error value is rendered
by its class name and message, not by the configured formatter, which
would have produced "excp f raised ValueError ZZZ". -/
theorem C7_counterexample_error_value_not_formatted :
    (trace__ defaultCfg "f" spec0 (fun _ _ => "ZZZ")
        (fun _ _ => Outcome.exc "ValueError" "bad") [] [] 0).1
      = ["entr f()", "excp f raised ValueError bad"]
  ∧ (["entr f()", "excp f raised ValueError bad"] : List String)
      ≠ ["entr f()", "excp f raised ValueError ZZZ"] := by
  exact ⟨rfl, by decide⟩

/-- C7 amended: the rendered argument string applies the configured
formatter once per entry of the formatter log — one entry per bound
declared parameter carrying that parameter's name, plus the declared
starred catch-alls — and the exit (or combined call) record renders the
return value through the formatter with no name; the error text of an
exception record is the class name and message, not a formatter result. -/
theorem C7_amended_formatter_usage :
    (∀ (spec : ArgSpec) (xfrm : Option String → Val → String)
       (args : List Val) (kwargs : List (String × Val)),
       callargs_repr spec xfrm args kwargs
         = String.intercalate ", "
             ((xfrmLog spec args kwargs).map (fun p => p.1.getD "" ++ "=" ++ xfrm p.1 p.2)))
  ∧ (∀ (cfg : TraceCfg) (fname : String) (spec : ArgSpec)
       (xfrm : Option String → Val → String)
       (func : List Val → List (String × Val) → Outcome)
       (args : List Val) (kwargs : List (String × Val)) (elapsed : Nat) (v : Val),
       func args kwargs = Outcome.ret v →
       matchB cfg.onreturn v = true →
       matchB cfg.oncall (pairVal args kwargs) = true →
       (trace__ cfg fname spec xfrm func args kwargs elapsed).1
         = ["entr " ++ (fname ++ "("
              ++ callargs_repr spec xfrm [Val.tuple args, Val.dict kwargs] [] ++ ")"),
            "exit " ++ (fname ++ " = " ++ xfrm Option.none v
              ++ (if cfg.timing then usecsSuffix elapsed else ""))])
  ∧ (∀ (cfg : TraceCfg) (fname : String) (spec : ArgSpec)
       (xfrm : Option String → Val → String)
       (func : List Val → List (String × Val) → Outcome)
       (args : List Val) (kwargs : List (String × Val)) (elapsed : Nat) (cls msg : String),
       func args kwargs = Outcome.exc cls msg →
       matchB cfg.onexception (Val.exc cls msg) = true →
       matchB cfg.oncall (pairVal args kwargs) = true →
       (trace__ cfg fname spec xfrm func args kwargs elapsed).1
         = ["entr " ++ (fname ++ "("
              ++ callargs_repr spec xfrm [Val.tuple args, Val.dict kwargs] [] ++ ")"),
            "excp " ++ (fname ++ " raised " ++ cls ++ " " ++ msg
              ++ (if cfg.timing then usecsSuffix elapsed else ""))]) := by
  refine ⟨?_, ?_, ?_⟩
  · intro spec xfrm args kwargs
    have hfun : ((fun p : Option String × Val => p.1.getD "" ++ "=" ++ xfrm p.1 p.2)
        ∘ fun kv : String × Val => ((some kv.1 : Option String), kv.2))
        = fun kv : String × Val => kv.1 ++ "=" ++ xfrm (some kv.1) kv.2 := by
      funext kv
      rfl
    simp only [callargs_repr, xfrmLog]
    cases hv : spec.varargs <;> cases hk : spec.keywords <;>
      simp [List.map_append, List.map_map, hfun]
  · intro cfg fname spec xfrm func args kwargs elapsed v hf hret honc
    simp [trace__, hf, hret, honc]
  · intro cfg fname spec xfrm func args kwargs elapsed cls msg hf hexc honc
    simp [trace__, hf, hexc, honc]

/-- C9: an error that is not an Exception instance (a BaseException such as
KeyboardInterrupt) is not caught by the wrapper's except clause: no error
record is emitted whatever the on-exception predicate, the records are at
most the entry record, and the error propagates unchanged. -/
theorem C9_base_exception_uncaught (cfg : TraceCfg) (fname : String) (spec : ArgSpec)
    (xfrm : Option String → Val → String)
    (func : List Val → List (String × Val) → Outcome)
    (args : List Val) (kwargs : List (String × Val)) (elapsed : Nat)
    (cls msg : String) (h : func args kwargs = Outcome.baseRaise cls msg) :
    (trace__ cfg fname spec xfrm func args kwargs elapsed
      = ((if matchB cfg.oncall (pairVal args kwargs) then
            ["entr " ++ (fname ++ "("
              ++ callargs_repr spec xfrm [Val.tuple args, Val.dict kwargs] [] ++ ")")]
          else []), Outcome.baseRaise cls msg))
  ∧ (∀ p : PyCfg,
      trace__ ⟨cfg.oncall, p, cfg.onreturn, cfg.timing⟩ fname spec xfrm func args kwargs elapsed
        = trace__ cfg fname spec xfrm func args kwargs elapsed) := by
  obtain ⟨oc, oe, ore, tmg⟩ := cfg
  constructor
  · simp [trace__, h]
  · intro p
    simp [trace__, h]

/-- C9 witness: the base-exception theorem applied to a zero-parameter
function raising a KeyboardInterrupt-like error under default predicates:
only the entry record is emitted and the error propagates. -/
theorem C9_base_exception_uncaught_witness :
    ((fun (_ : List Val) (_ : List (String × Val)) =>
        Outcome.baseRaise "KeyboardInterrupt" "") ([] : List Val) ([] : List (String × Val))
      = Outcome.baseRaise "KeyboardInterrupt" "")
  ∧ trace__ defaultCfg "f" spec0 _repr
      (fun _ _ => Outcome.baseRaise "KeyboardInterrupt" "") [] [] 0
      = (["entr f()"], Outcome.baseRaise "KeyboardInterrupt" "") := by
  refine ⟨rfl, ?_⟩
  have h := (C9_base_exception_uncaught defaultCfg "f" spec0 _repr
    (fun _ _ => Outcome.baseRaise "KeyboardInterrupt" "") [] [] 0
    "KeyboardInterrupt" "" rfl).1
  rw [h]
  rfl
